import Mathlib

/-!
Shallow embedding of `src/models/inhomogeneous_poisson_generator.cpp`
(the NEST `inhomogeneous_poisson_generator` stimulation device).

Modelling conventions:
* Continuous times (milliseconds) and rate values (double) are embedded as
  exact rationals `ℚ`.
* A stored `Time` object is embedded by its step count (`get_steps`), an
  integer; `hres : ℚ` is the global step resolution in ms (`Time::get_resolution().get_ms()`),
  and `now : ℚ` is the current simulation time in ms
  (`kernel().simulation_manager.get_time().get_ms()`).  Both are reads of
  external kernel state and are passed as explicit arguments.
* A time `t` ms is grid-aligned (`Time::is_grid_time`) when `t / hres` is an
  integer, i.e. `(t / hres).den = 1`; `Time::ms_stamp` rounds up to the end of
  the containing step, i.e. to step `⌈t / hres⌉`.
* C++ member functions that mutate their object and can throw are embedded as
  functions `state → Option Err × state`: the `Option Err` is the thrown
  exception (`none` = normal return) and the returned state is the state of
  the mutated objects at the moment the function exits, including the
  partially mutated state at a throw site.
* The kernel-side RNG draw in `event_hook` is an external collaborator and is
  passed as the argument `n` (the value of `n_spikes`).
-/

namespace nest

/-- Validation errors of the configuration surface.  Each constructor names
the spec's taxonomy variant for one `throw BadProperty` / `BadParameterValue`
site of the source file:
`NotInFuture` = "Time points must lie strictly in the future." (line 87),
`NotGridAligned` = "Time point ... is not representable in current resolution." (line 105),
`NonMonotonic` = "Rate times must be strictly increasing." (line 184),
`SizeMismatch` = "Rate times and values have to be the same size." (line 160),
`AsymmetricUpdate` = "Rate times and values must be reset together." (line 142),
`OffGridFlagLocked` = "Option can only be set together with rate times or if no rate times have been set." (line 130),
`OddPairCount` = "The size of the data ... needs to be even" (line 305). -/
inductive Err where
  | NotInFuture
  | NotGridAligned
  | NonMonotonic
  | SizeMismatch
  | AsymmetricUpdate
  | OffGridFlagLocked
  | OddPairCount
deriving DecidableEq, Repr

/-- The `Parameters_` struct: stored rate times (as grid steps), stored rate
values (spikes/s), and the off-grid flag. -/
structure Parameters_ where
  rate_times_ : List ℤ
  rate_values_ : List ℚ
  allow_offgrid_times_ : Bool
deriving DecidableEq, Repr

/-- The `Buffers_` struct: the schedule cursor `idx_` and the current rate
`rate_` (spikes/ms). -/
structure Buffers_ where
  idx_ : ℕ
  rate_ : ℚ
deriving DecidableEq, Repr

/-- The default constructor `Parameters_::Parameters_()`: empty schedule,
off-grid times not allowed. -/
def Parameters_.init : Parameters_ :=
  { rate_times_ := [], rate_values_ := [], allow_offgrid_times_ := false }

/-- `init_buffers_()`: resets the cursor to 0 and the current rate to 0. -/
def init_buffers_ : Buffers_ :=
  { idx_ := 0, rate_ := 0 }

/-- The update dictionary passed to `Parameters_::set`: each field is `some`
exactly when the corresponding key is present in the `DictionaryDatum`. -/
structure SetDict where
  rate_times : Option (List ℚ)
  rate_values : Option (List ℚ)
  allow_offgrid_times : Option Bool
deriving DecidableEq, Repr

/-- The aligned grid step a raw time `t` is mapped to by
`assert_valid_rate_time_and_insert` when it is accepted: `t / hres` itself if
`t` is grid-aligned, else (off-grid case, `Time::ms_stamp`) the end of the
containing step `⌈t / hres⌉`. -/
def alignStep (hres : ℚ) (t : ℚ) : ℤ :=
  if (t / hres).den = 1 then (t / hres).num else Int.ceil (t / hres)

/-- `Parameters_::assert_valid_rate_time_and_insert` (lines 80-114), with the
`push_back` factored into the callers: validates one raw time `t` (ms) and
returns the grid step to append, or the thrown error.
Order of checks is the source's: future check, then grid check, then the
off-grid policy branch. -/
def assert_valid_rate_time_and_insert (hres now : ℚ) (allow : Bool) (t : ℚ) :
    Except Err ℤ :=
  if t ≤ now then .error .NotInFuture
  else if (t / hres).den = 1 then .ok (t / hres).num
  else if allow then .ok (Int.ceil (t / hres))
  else .error .NotGridAligned

/-- The loop of `Parameters_::set` over the remaining rate times
(lines 177-186): validate and append each raw time in given order, and after
each append compare it with the previously appended aligned time
(`*prev_rate >= rate_times_.back()` throws `NonMonotonic`).
The returned list is the contents of `rate_times_` when the loop exits,
including the partially built list at a throw site. -/
def insertRest (hres now : ℚ) (allow : Bool) :
    ℤ → List ℚ → List ℤ → Option Err × List ℤ
  | _, [], acc => (none, acc)
  | prevA, t :: rest, acc =>
    match assert_valid_rate_time_and_insert hres now allow t with
    | .error e => (some e, acc)
    | .ok s =>
      if prevA < s then insertRest hres now allow s rest (acc ++ [s])
      else (some .NonMonotonic, acc ++ [s])

/-- The whole rebuild of `rate_times_` by `Parameters_::set` (lines 163-186):
clear, insert the first raw time (no monotonicity check), then run the loop
over the rest. -/
def buildTimes (hres now : ℚ) (allow : Bool) : List ℚ → Option Err × List ℤ
  | [] => (none, [])
  | t :: rest =>
    match assert_valid_rate_time_and_insert hres now allow t with
    | .error e => (some e, [])
    | .ok s => insertRest hres now allow s rest [s]

/-- The tail of `Parameters_::set` after the off-grid flag handling
(lines 140-189): the symmetric-presence check, the two no-op early returns,
the size check, the rebuild of `rate_times_` and the cursor reset.
`times`/`rates` are the key-presence booleans computed at the top of `set`;
`p` already reflects the `updateValue` overwrite of `rate_values_` and any
flag assignment. -/
def setTimesRates (hres now : ℚ) (d : SetDict) (p : Parameters_) (b : Buffers_)
    (times rates : Bool) : Option Err × Parameters_ × Buffers_ :=
  if times != rates then (some .AsymmetricUpdate, p, b)
  else if !(times || rates) then (none, p, b)
  else
    let ts := d.rate_times.getD []
    if ts = [] then (none, p, b)
    else if ts.length ≠ p.rate_values_.length then (some .SizeMismatch, p, b)
    else
      match buildTimes hres now p.allow_offgrid_times_ ts with
      | (some e, built) => (some e, { p with rate_times_ := built }, b)
      | (none, built) => (none, { p with rate_times_ := built }, { b with idx_ := 0 })

/-- `Parameters_::set(d, b, node)` (lines 116-190).  Statement order follows
the source: the key-presence tests (where `updateValue` already overwrites
`rate_values_` when the key is present), then the off-grid flag check and
assignment, then the rest (`setTimesRates`).  The result is the thrown error
(if any) together with the state of `p` and `b` when control leaves the
function. -/
def Parameters_.set (hres now : ℚ) (d : SetDict) (p : Parameters_) (b : Buffers_) :
    Option Err × Parameters_ × Buffers_ :=
  let times := d.rate_times.isSome
  let rates := d.rate_values.isSome
  let p1 : Parameters_ :=
    match d.rate_values with
    | some v => { p with rate_values_ := v }
    | none => p
  match d.allow_offgrid_times with
  | some flag =>
    if flag != p.allow_offgrid_times_ && !(times || p.rate_times_.isEmpty) then
      (some .OffGridFlagLocked, p1, b)
    else
      setTimesRates hres now d { p1 with allow_offgrid_times_ := flag } b times rates
  | none => setTimesRates hres now d p1 b times rates

/-- Modelled from the spec: the bulk configuration entry point
(`inhomogeneous_poisson_generator::set_status`, declared in the device header
which is not part of the sources here) applies `Parameters_::set` to a
temporary copy of the stored parameters and commits the copy only on success:
"state is guaranteed unmodified on failure (temporary-build-then-swap commit
discipline)".  The buffers object is the real one, as in
`set_data_from_stimulation_backend`. -/
def set_status (hres now : ℚ) (d : SetDict) (P : Parameters_) (B : Buffers_) :
    Option Err × Parameters_ × Buffers_ :=
  match Parameters_.set hres now d P B with
  | (some e, _, b2) => (some e, P, b2)
  | (none, p2, b2) => (none, p2, b2)

/-- The times at even positions of a flat `[time, rate, time, rate, ...]`
update list (`rate_time_update[n * 2]`, line 319). -/
def pairTimes : List ℚ → List ℚ
  | t :: _ :: rest => t :: pairTimes rest
  | _ => []

/-- The rates at odd positions of a flat update list
(`rate_time_update[n * 2 + 1]`, line 320). -/
def pairRates : List ℚ → List ℚ
  | _ :: r :: rest => r :: pairRates rest
  | _ => []

/-- `set_data_from_stimulation_backend` (lines 296-330): on a non-empty
update, reject odd length, re-expand the stored schedule to raw ms/rate
pairs (`rate_times_[n].get_ms()` = step · resolution), append the new pairs,
and run `Parameters_::set` on a temporary copy; commit (`P_ = ptmp`) only if
`set` returns normally, otherwise the exception propagates with the stored
parameters untouched. -/
def set_data_from_stimulation_backend (hres now : ℚ) (P : Parameters_)
    (B : Buffers_) (upd : List ℚ) : Option Err × Parameters_ × Buffers_ :=
  if upd = [] then (none, P, B)
  else if upd.length % 2 ≠ 0 then (some .OddPairCount, P, B)
  else
    let d : SetDict :=
      { rate_times := some ((P.rate_times_.map fun s : ℤ => (s : ℚ) * hres) ++ pairTimes upd)
        rate_values := some (P.rate_values_ ++ pairRates upd)
        allow_offgrid_times := none }
    match Parameters_.set hres now d P B with
    | (some e, _, b2) => (some e, P, b2)
    | (none, p2, b2) => (none, p2, b2)

/-- The catch-up loop of `update` (lines 252-255), with explicit fuel
(`times.length` suffices since the index grows towards it): advance the
cursor past every stored time `≤ first`. -/
def catchUpN (times : List ℤ) (first : ℤ) : ℕ → ℕ → ℕ
  | 0, i => i
  | fuel + 1, i =>
    if i < times.length ∧ times.getD i 0 ≤ first then catchUpN times first fuel (i + 1)
    else i

/-- The catch-up loop of `update`: `while (idx_ < size ∧ times[idx_].get_steps() ≤ first) ++idx_`. -/
def catchUp (times : List ℤ) (first : ℤ) (i : ℕ) : ℕ :=
  catchUpN times first times.length i

/-- The body of the per-step loop of `update` (lines 259-268) for the step at
absolute time `curr`: the look-ahead rate update.  (The emission decision of
lines 271-275 sends to external collaborators and does not change this
state.) -/
def stepOnce (times : List ℤ) (vals : List ℚ) (curr : ℤ) (b : Buffers_) : Buffers_ :=
  if b.idx_ < times.length ∧ curr + 1 = times.getD b.idx_ 0 then
    { idx_ := b.idx_ + 1, rate_ := vals.getD b.idx_ 0 / 1000 }
  else b

/-- The per-step loop of `update` over a list of step offsets. -/
def runSteps (times : List ℤ) (vals : List ℚ) (t0 : ℤ) : List ℤ → Buffers_ → Buffers_
  | [], b => b
  | offs :: rest, b => runSteps times vals t0 rest (stepOnce times vals (t0 + offs) b)

/-- The offsets `lo, lo+1, ..., hi-1` of one step block. -/
def blockOffsets (lo hi : ℤ) : List ℤ :=
  (List.range (hi - lo).toNat).map fun k => lo + Int.ofNat k

/-- `update(origin, from, to)` (lines 240-277) restricted to the state it
mutates (`B_`): `t0 = origin.get_steps()`, catch-up past times `≤ t0 + from`,
then the look-ahead loop over the offsets of `[from, to)`. -/
def update (times : List ℤ) (vals : List ℚ) (t0 lo hi : ℤ) (b : Buffers_) : Buffers_ :=
  runSteps times vals t0 (blockOffsets lo hi)
    { b with idx_ := catchUp times (t0 + lo) b.idx_ }

/-- `event_hook(e)` (lines 279-290) given the value `n` drawn by the kernel's
Poisson distribution (an external collaborator): the multiplicity attached to
the forwarded event, or `none` when nothing is forwarded. -/
def event_hook (n : ℕ) : Option ℕ :=
  if 0 < n then some n else none

/-! ### Helper lemmas -/

theorem setTimesRates_buffers (hres now : ℚ) (d : SetDict) (p : Parameters_)
    (b : Buffers_) (times rates : Bool) :
    (setTimesRates hres now d p b times rates).2.2 = b ∨
    ((setTimesRates hres now d p b times rates).1 = none ∧
     (setTimesRates hres now d p b times rates).2.2 = { b with idx_ := 0 }) := by
  simp only [setTimesRates]
  repeat' split
  all_goals simp

theorem Parameters_.set_buffers (hres now : ℚ) (d : SetDict) (p : Parameters_)
    (b : Buffers_) :
    (Parameters_.set hres now d p b).2.2 = b ∨
    ((Parameters_.set hres now d p b).1 = none ∧
     (Parameters_.set hres now d p b).2.2 = { b with idx_ := 0 }) := by
  simp only [Parameters_.set]
  repeat' split
  all_goals first
    | apply setTimesRates_buffers
    | simp

theorem Parameters_.set_rate (hres now : ℚ) (d : SetDict) (p : Parameters_)
    (b : Buffers_) :
    ((Parameters_.set hres now d p b).2.2).rate_ = b.rate_ := by
  rcases Parameters_.set_buffers hres now d p b with h | ⟨_, h⟩ <;> rw [h]

theorem Parameters_.set_error_buffers (hres now : ℚ) (d : SetDict) (p : Parameters_)
    (b : Buffers_) (h : (Parameters_.set hres now d p b).1.isSome) :
    (Parameters_.set hres now d p b).2.2 = b := by
  rcases Parameters_.set_buffers hres now d p b with h2 | ⟨h2, _⟩
  · exact h2
  · rw [h2] at h
    simp at h

theorem setTimesRates_ok_cursor (hres now : ℚ) (d : SetDict) (p : Parameters_)
    (b : Buffers_) (rates : Bool) (ts : List ℚ)
    (hts : d.rate_times = some ts) (hne : ts ≠ []) :
    (setTimesRates hres now d p b true rates).1.isSome ∨
    (setTimesRates hres now d p b true rates).2.2 = { b with idx_ := 0 } := by
  simp only [setTimesRates, hts, Option.getD_some]
  repeat' split
  all_goals simp_all

theorem Parameters_.set_ok_cursor (hres now : ℚ) (d : SetDict) (p : Parameters_)
    (b : Buffers_) (ts : List ℚ) (hts : d.rate_times = some ts) (hne : ts ≠ []) :
    (Parameters_.set hres now d p b).1.isSome ∨
    (Parameters_.set hres now d p b).2.2 = { b with idx_ := 0 } := by
  simp only [Parameters_.set, hts, Option.isSome_some]
  repeat' split
  all_goals first
    | exact setTimesRates_ok_cursor hres now d _ b _ ts hts hne
    | simp

theorem set_status_error (hres now : ℚ) (d : SetDict) (P : Parameters_)
    (B : Buffers_) (e : Err) (h : (set_status hres now d P B).1 = some e) :
    (set_status hres now d P B).2 = (P, B) := by
  rcases hset : Parameters_.set hres now d P B with ⟨err, p2, b2⟩
  have hb := Parameters_.set_buffers hres now d P B
  rw [hset] at hb
  unfold set_status at h ⊢
  rw [hset] at h ⊢
  cases err with
  | none => simp at h
  | some e2 =>
    rcases hb with hb | ⟨hb, _⟩
    · simp only at hb ⊢
      rw [hb]
    · simp at hb

theorem set_data_error (hres now : ℚ) (P : Parameters_) (B : Buffers_)
    (upd : List ℚ) (e : Err)
    (h : (set_data_from_stimulation_backend hres now P B upd).1 = some e) :
    (set_data_from_stimulation_backend hres now P B upd).2 = (P, B) := by
  by_cases hupd : upd = []
  · simp [set_data_from_stimulation_backend, hupd] at h
  · by_cases hodd : upd.length % 2 ≠ 0
    · simp only [set_data_from_stimulation_backend, if_neg hupd, if_pos hodd]
    · rcases hset : Parameters_.set hres now
        ⟨some ((P.rate_times_.map fun s : ℤ => (s : ℚ) * hres) ++ pairTimes upd),
         some (P.rate_values_ ++ pairRates upd), none⟩ P B with ⟨err, p2, b2⟩
      have hb := Parameters_.set_buffers hres now
        ⟨some ((P.rate_times_.map fun s : ℤ => (s : ℚ) * hres) ++ pairTimes upd),
         some (P.rate_values_ ++ pairRates upd), none⟩ P B
      rw [hset] at hb
      simp only [set_data_from_stimulation_backend, if_neg hupd, if_neg hodd] at h ⊢
      rw [hset] at h ⊢
      cases err with
      | none => simp at h
      | some e2 =>
        rcases hb with hb | ⟨hb, _⟩
        · simp only at hb ⊢
          rw [hb]
        · simp at hb

theorem stepOnce_eq_self (times : List ℤ) (vals : List ℚ) (curr : ℤ) (b : Buffers_)
    (h : ∀ x ∈ times, curr + 1 ≠ x) : stepOnce times vals curr b = b := by
  unfold stepOnce
  rw [if_neg]
  rintro ⟨h1, h2⟩
  exact h _ (by rw [List.getD_eq_getElem _ _ h1]; exact List.getElem_mem h1) h2

theorem runSteps_rate (times : List ℤ) (vals : List ℚ) (t0 : ℤ) (l : List ℤ)
    (b : Buffers_) (h : ∀ o ∈ l, ∀ x ∈ times, t0 + o + 1 ≠ x) :
    (runSteps times vals t0 l b).rate_ = b.rate_ := by
  induction l generalizing b with
  | nil => rfl
  | cons o rest ih =>
    unfold runSteps
    rw [stepOnce_eq_self times vals _ b (fun x hx => h o (by simp) x hx)]
    exact ih b (fun o2 ho2 x hx => h o2 (by simp [ho2]) x hx)

theorem blockOffsets_lt (lo hi o : ℤ) (h : o ∈ blockOffsets lo hi) : o < hi := by
  unfold blockOffsets at h
  obtain ⟨k, hk, hko⟩ := List.mem_map.mp h
  rw [List.mem_range] at hk
  rw [Int.ofNat_eq_natCast] at hko
  omega

theorem update_rate_of_future (times : List ℤ) (vals : List ℚ) (t0 lo hi : ℤ)
    (b : Buffers_) (h : ∀ x ∈ times, t0 + hi < x) :
    (update times vals t0 lo hi b).rate_ = b.rate_ := by
  have hr := runSteps_rate times vals t0 (blockOffsets lo hi)
    { b with idx_ := catchUp times (t0 + lo) b.idx_ }
    (fun o ho x hx => by
      have h1 := blockOffsets_lt lo hi o ho
      have h2 := h x hx
      omega)
  unfold update
  rw [hr]

/-! ### Claims -/

/-- C1: Atomic replacement: whenever a configuration call (bulk set via the
`set_status` wrapper, or `set_data_from_stimulation_backend`) raises any
validation error, the entire stored configuration state — `rate_times_`,
`rate_values_`, `allow_offgrid_times_` (all inside the returned
`Parameters_`) and the cursor `idx_` (inside the returned `Buffers_`) — is
exactly what it was before the call, for every prior state and every
input. -/
theorem C1_atomic_replacement (hres now : ℚ) (d : SetDict) (p : Parameters_)
    (b : Buffers_) (upd : List ℚ) :
    (∀ e, (set_status hres now d p b).1 = some e →
      (set_status hres now d p b).2 = (p, b)) ∧
    (∀ e, (set_data_from_stimulation_backend hres now p b upd).1 = some e →
      (set_data_from_stimulation_backend hres now p b upd).2 = (p, b)) :=
  ⟨fun e h => set_status_error hres now d p b e h,
   fun e h => set_data_error hres now p b upd e h⟩

/-- Witness for C1: a failing bulk set (`AsymmetricUpdate`: only `rate_times`
supplied) and a failing backend merge (`OddPairCount`: a 1-element flat list)
both leave the concrete prior state `⟨[3], [2], false⟩`, cursor 4, exactly
unchanged. -/
theorem C1_witness :
    (set_status 1 0 ⟨some [5], none, none⟩ ⟨[3], [2], false⟩ ⟨4, 7⟩).1
        = some .AsymmetricUpdate ∧
    (set_status 1 0 ⟨some [5], none, none⟩ ⟨[3], [2], false⟩ ⟨4, 7⟩).2
        = (⟨[3], [2], false⟩, ⟨4, 7⟩) ∧
    (set_data_from_stimulation_backend 1 0 ⟨[3], [2], false⟩ ⟨4, 7⟩ [9]).1
        = some .OddPairCount ∧
    (set_data_from_stimulation_backend 1 0 ⟨[3], [2], false⟩ ⟨4, 7⟩ [9]).2
        = (⟨[3], [2], false⟩, ⟨4, 7⟩) := by
  refine ⟨by with_unfolding_all rfl, ?_, by with_unfolding_all rfl, ?_⟩
  · exact (C1_atomic_replacement 1 0 ⟨some [5], none, none⟩ ⟨[3], [2], false⟩
      ⟨4, 7⟩ [9]).1 .AsymmetricUpdate (by with_unfolding_all rfl)
  · exact (C1_atomic_replacement 1 0 ⟨some [5], none, none⟩ ⟨[3], [2], false⟩
      ⟨4, 7⟩ [9]).2 .OddPairCount (by with_unfolding_all rfl)

/-- C2 counterexample: the claim "a set call supplying both `rate_times` and
`rate_values` with `rate_times` an empty list leaves `rate_times_`,
`rate_values_` and the cursor all unchanged" is false at the concrete input
`set(times = [], rates = [42])` on stored state `⟨[5], [7], false⟩`: the call
returns without error, yet `rate_values_` is overwritten to `[42]` (the
`updateValue` on line 120 runs before the empty-`times` early return on
line 155). -/
theorem C2_counterexample :
    (set_status 1 0 ⟨some [], some [42], none⟩ ⟨[5], [7], false⟩ ⟨3, 9⟩).1 = none ∧
    ¬ ((set_status 1 0 ⟨some [], some [42], none⟩ ⟨[5], [7], false⟩ ⟨3, 9⟩).2.1).rate_values_
        = (Parameters_.mk [5] [7] false).rate_values_ := by
  have hrun : set_status 1 0 ⟨some [], some [42], none⟩ ⟨[5], [7], false⟩ ⟨3, 9⟩
      = (none, ⟨[5], [42], false⟩, ⟨3, 9⟩) := by with_unfolding_all rfl
  refine ⟨by rw [hrun], ?_⟩
  rw [hrun]
  norm_num

/-- C2 amended: for every prior state and every set call supplying both keys
with `rate_times` an empty list, the call returns without error and leaves
`rate_times_` and the whole buffers object (cursor and rate) unchanged, but
stores the supplied `rate_values` list as the new `rate_values_`. -/
theorem C2_empty_times_update (hres now : ℚ) (vs : List ℚ) (fl : Option Bool)
    (p : Parameters_) (b : Buffers_) :
    (set_status hres now ⟨some [], some vs, fl⟩ p b).1 = none ∧
    ((set_status hres now ⟨some [], some vs, fl⟩ p b).2.1).rate_times_ = p.rate_times_ ∧
    ((set_status hres now ⟨some [], some vs, fl⟩ p b).2.1).rate_values_ = vs ∧
    (set_status hres now ⟨some [], some vs, fl⟩ p b).2.2 = b := by
  cases fl <;>
    simp [set_status, Parameters_.set, setTimesRates]

/-- C3 (code-bug evaluation): the stored-schedule invariant
(`rate_times_` and `rate_values_` of equal length, times strictly
increasing) holds before but not after the error-free call
`set(times = [], rates = [])` on stored state `⟨[5], [7], false⟩`:
the call leaves `rate_times_ = [5]` but overwrites `rate_values_` with `[]`,
producing the very length mismatch that the `assert` on line 245 of `update`
forbids. -/
theorem C3_invariant_violation :
    ((Parameters_.mk [5] [7] false).rate_times_.length
        = (Parameters_.mk [5] [7] false).rate_values_.length ∧
      List.Pairwise (· < ·) (Parameters_.mk [5] [7] false).rate_times_) ∧
    (set_status 1 0 ⟨some [], some [], none⟩ ⟨[5], [7], false⟩ ⟨0, 0⟩).1 = none ∧
    ¬ ((set_status 1 0 ⟨some [], some [], none⟩ ⟨[5], [7], false⟩ ⟨0, 0⟩).2.1).rate_times_.length
        = ((set_status 1 0 ⟨some [], some [], none⟩ ⟨[5], [7], false⟩ ⟨0, 0⟩).2.1).rate_values_.length := by
  have hrun : set_status 1 0 ⟨some [], some [], none⟩ ⟨[5], [7], false⟩ ⟨0, 0⟩
      = (none, ⟨[5], [], false⟩, ⟨0, 0⟩) := by with_unfolding_all rfl
  exact ⟨⟨rfl, by simp⟩, by rw [hrun], by rw [hrun]; simp⟩

/-- C4: look-ahead correctness of the per-step body of `update`: if the
cursor is in range and the stored time of `schedule[cursor]` equals step
`s + 1`, then processing step `s` sets the current rate to
`schedule[cursor].rate / 1000` and advances the cursor by exactly one;
conversely, the body changes the state at step `s` only when the breakpoint
at the cursor is exactly at step `s + 1`, so a breakpoint's rate becomes
observable at step `t - 1` and at no earlier step. -/
theorem C4_look_ahead (times : List ℤ) (vals : List ℚ) :
    (∀ (s : ℤ) (b : Buffers_), b.idx_ < times.length →
      times.getD b.idx_ 0 = s + 1 →
      stepOnce times vals s b = ⟨b.idx_ + 1, vals.getD b.idx_ 0 / 1000⟩) ∧
    (∀ (s : ℤ) (b : Buffers_), stepOnce times vals s b ≠ b →
      b.idx_ < times.length ∧ times.getD b.idx_ 0 = s + 1) := by
  constructor
  · intro s b h1 h2
    unfold stepOnce
    rw [if_pos ⟨h1, h2.symm⟩]
  · intro s b hneq
    by_cases hc : b.idx_ < times.length ∧ s + 1 = times.getD b.idx_ 0
    · exact ⟨hc.1, hc.2.symm⟩
    · unfold stepOnce at hneq
      rw [if_neg hc] at hneq
      exact absurd rfl hneq

/-- Witness for C4: with breakpoints at steps 10 and 20 and rates 5 and 0
(the spec's example), the rate of the breakpoint at step 10 is installed
while processing step 9, and running the whole block `[0, 10)` (resp.
`[0, 20)`) from a fresh buffer ends with rate `5/1000` (resp. `0`). -/
theorem C4_witness :
    stepOnce [10, 20] [5, 0] 9 ⟨0, 0⟩ = ⟨1, 5 / 1000⟩ ∧
    update [10, 20] [5, 0] 0 0 10 ⟨0, 0⟩ = ⟨1, 5 / 1000⟩ ∧
    update [10, 20] [5, 0] 0 0 20 ⟨0, 0⟩ = ⟨2, 0⟩ := by
  refine ⟨?_, by with_unfolding_all rfl, by with_unfolding_all rfl⟩
  exact (C4_look_ahead [10, 20] [5, 0]).1 9 ⟨0, 0⟩ (by decide) (by decide)

/-- C8: multiplicity floor at resolution time: if the Poisson draw `n` is 0
no event is forwarded, if `n > 0` exactly one event carrying multiplicity
`n` is forwarded, and every forwarded multiplicity is at least 1. -/
theorem C8_multiplicity_floor (n : ℕ) :
    (n = 0 → event_hook n = none) ∧
    (0 < n → event_hook n = some n) ∧
    (∀ m, event_hook n = some m → 1 ≤ m) := by
  refine ⟨fun h => by simp [event_hook, h], fun h => by simp [event_hook, h], ?_⟩
  intro m hm
  unfold event_hook at hm
  split at hm
  · cases hm
    omega
  · cases hm

/-- Witness for C8: a zero draw is suppressed, a draw of 3 is forwarded as
one event of multiplicity 3. -/
theorem C8_witness :
    event_hook 0 = none ∧ event_hook 3 = some 3 ∧ 1 ≤ 3 :=
  ⟨(C8_multiplicity_floor 0).1 rfl, (C8_multiplicity_floor 3).2.1 (by decide),
   (C8_multiplicity_floor 3).2.2 3 ((C8_multiplicity_floor 3).2.1 (by decide))⟩

/-- C9: a bulk set never modifies the current rate, and on success with a
non-empty `rate_times` list it resets the cursor to 0 (leaving the rate as it
was); the rate is 0 only from buffer initialization; and a stepping call over
a block that ends before every stored breakpoint leaves the rate unchanged,
so the rate established under the previous schedule keeps driving emission
until the first breakpoint of the new schedule takes effect. -/
theorem C9_rate_persistence (hres now : ℚ) (d : SetDict) (p : Parameters_)
    (b : Buffers_) :
    ((set_status hres now d p b).2.2).rate_ = b.rate_ ∧
    (∀ ts, d.rate_times = some ts → ts ≠ [] →
      (set_status hres now d p b).1 = none →
      (set_status hres now d p b).2.2 = ⟨0, b.rate_⟩) ∧
    init_buffers_ = ⟨0, 0⟩ ∧
    (∀ (times : List ℤ) (vals : List ℚ) (t0 lo hi : ℤ) (b2 : Buffers_),
      (∀ x ∈ times, t0 + hi < x) →
      (update times vals t0 lo hi b2).rate_ = b2.rate_) := by
  refine ⟨?_, ?_, rfl, fun times vals t0 lo hi b2 h =>
    update_rate_of_future times vals t0 lo hi b2 h⟩
  · unfold set_status
    rcases hset : Parameters_.set hres now d p b with ⟨err, p2, b2⟩
    have hr := Parameters_.set_rate hres now d p b
    rw [hset] at hr
    cases err <;> simpa using hr
  · intro ts hts hne hok
    unfold set_status at hok ⊢
    rcases hset : Parameters_.set hres now d p b with ⟨err, p2, b2⟩
    rw [hset] at hok
    cases err with
    | some e => simp at hok
    | none =>
      rcases Parameters_.set_ok_cursor hres now d p b ts hts hne with hc | hc
      · rw [hset] at hc
        simp at hc
      · rw [hset] at hc
        exact hc

/-- Witness for C9: a successful non-trivial set on cursor 2, rate 3 yields
cursor 0 with rate still 3; a block `[0, 3)` against a schedule whose only
breakpoint is at step 100 leaves the rate 9 unchanged. -/
theorem C9_witness :
    (set_status 1 0 ⟨some [5], some [7], none⟩ Parameters_.init ⟨2, 3⟩).2.2 = ⟨0, 3⟩ ∧
    (update [100] [4] 0 0 3 ⟨0, 9⟩).rate_ = 9 := by
  constructor
  · exact (C9_rate_persistence 1 0 ⟨some [5], some [7], none⟩ Parameters_.init ⟨2, 3⟩).2.1
      [5] rfl (by decide) (by with_unfolding_all rfl)
  · exact (C9_rate_persistence 1 0 ⟨some [5], some [7], none⟩ Parameters_.init ⟨2, 3⟩).2.2.2
      [100] [4] 0 0 3 ⟨0, 9⟩ (by decide)

/-- C7: future-only acceptance: a submitted raw time `t` fails `NotInFuture`
if and only if `t` is not strictly greater than the current simulation time,
and every accepted time is strictly greater than the simulation time at
acceptance. -/
theorem C7_future_only (hres now t : ℚ) (allow : Bool) :
    (assert_valid_rate_time_and_insert hres now allow t = .error .NotInFuture ↔ t ≤ now) ∧
    (∀ s : ℤ, assert_valid_rate_time_and_insert hres now allow t = .ok s → now < t) := by
  unfold assert_valid_rate_time_and_insert
  refine ⟨⟨fun h => ?_, fun h => by rw [if_pos h]⟩, fun s h => ?_⟩
  · by_contra hcon
    rw [if_neg hcon] at h
    split at h
    · cases h
    · split at h
      · cases h
      · cases h
  · by_contra hcon
    rw [if_pos (le_of_not_lt hcon)] at h
    cases h

/-- Witness for C7: at simulation time 60 ms the time 50 ms is rejected as
`NotInFuture`; at simulation time 0 ms it is not. -/
theorem C7_witness :
    assert_valid_rate_time_and_insert 1 60 false 50 = .error .NotInFuture ∧
    ¬ assert_valid_rate_time_and_insert 1 0 false 50 = .error .NotInFuture := by
  constructor
  · exact (C7_future_only 1 60 50 false).1.mpr (by norm_num)
  · intro hcon
    have h := (C7_future_only 1 0 50 false).1.mp hcon
    norm_num at h

/-- C6: grid-alignment policy of `assert_valid_rate_time_and_insert` for a
time `t` in the future: `t` is grid-aligned (a multiple of the resolution)
iff `(t / hres).den = 1`; an aligned time is stored unchanged (the stored
step times `hres` equals `t`); an off-grid time is rejected as
`NotGridAligned` when `allow_offgrid_times` is false; and when it is true the
time is stored as step `⌈t / hres⌉`, the smallest grid-aligned time `≥ t`
(the end of the containing step). -/
theorem C6_grid_alignment (hres now t : ℚ) (allow : Bool)
    (hh : 0 < hres) (hfut : now < t) :
    ((t / hres).den = 1 ↔ ∃ k : ℤ, t = (k : ℚ) * hres) ∧
    ((t / hres).den = 1 →
      assert_valid_rate_time_and_insert hres now allow t = .ok (t / hres).num ∧
      (((t / hres).num : ℚ) * hres = t)) ∧
    ((t / hres).den ≠ 1 → allow = false →
      assert_valid_rate_time_and_insert hres now allow t = .error .NotGridAligned) ∧
    ((t / hres).den ≠ 1 → allow = true →
      assert_valid_rate_time_and_insert hres now allow t = .ok ⌈t / hres⌉ ∧
      t ≤ (⌈t / hres⌉ : ℚ) * hres ∧
      ∀ k : ℤ, t ≤ (k : ℚ) * hres → ⌈t / hres⌉ ≤ k) := by
  have hne : hres ≠ 0 := ne_of_gt hh
  have hnle : ¬ t ≤ now := not_le.mpr hfut
  refine ⟨?_, fun hgrid => ?_, fun hgrid hfl => ?_, fun hgrid hfl => ?_⟩
  · constructor
    · intro hden
      refine ⟨(t / hres).num, ?_⟩
      have hnum : ((t / hres).num : ℚ) = t / hres := (Rat.den_eq_one_iff _).mp hden
      rw [hnum]
      field_simp
    · rintro ⟨k, rfl⟩
      have : (k : ℚ) * hres / hres = (k : ℚ) := by field_simp
      rw [this, Rat.den_intCast]
  · constructor
    · unfold assert_valid_rate_time_and_insert
      rw [if_neg hnle, if_pos hgrid]
    · have hnum : ((t / hres).num : ℚ) = t / hres := (Rat.den_eq_one_iff _).mp hgrid
      rw [hnum]
      field_simp
  · unfold assert_valid_rate_time_and_insert
    rw [if_neg hnle, if_neg hgrid, hfl]
    simp
  · refine ⟨?_, ?_, fun k hk => ?_⟩
    · unfold assert_valid_rate_time_and_insert
      rw [if_neg hnle, if_neg hgrid, hfl]
      simp
    · have h1 : t / hres ≤ (⌈t / hres⌉ : ℚ) := Int.le_ceil _
      calc t = t / hres * hres := by field_simp
        _ ≤ (⌈t / hres⌉ : ℚ) * hres := by
            exact mul_le_mul_of_nonneg_right h1 (le_of_lt hh)
    · apply Int.ceil_le.mpr
      rw [div_le_iff₀ hh]
      exact_mod_cast hk

/-- Witness for C6: with resolution 0.1 ms, the off-grid time 0.25 ms is
accepted under `allow_offgrid_times = true` and stored rounded up to step
`⌈0.25 / 0.1⌉ = 3` (that is, 0.3 ms). -/
theorem C6_witness :
    ((1/4 : ℚ) / (1/10)).den ≠ 1 ∧
    assert_valid_rate_time_and_insert (1/10) 0 true (1/4) = .ok ⌈(1/4 : ℚ) / (1/10)⌉ ∧
    ⌈(1/4 : ℚ) / (1/10)⌉ = 3 := by
  refine ⟨by with_unfolding_all decide, ?_, by with_unfolding_all rfl⟩
  exact ((C6_grid_alignment (1/10) 0 (1/4) true (by norm_num) (by norm_num)).2.2.2
    (by with_unfolding_all decide) rfl).1

theorem insert_ok_eq_alignStep (hres now : ℚ) (allow : Bool) (t : ℚ) (s : ℤ)
    (h : assert_valid_rate_time_and_insert hres now allow t = .ok s) :
    s = alignStep hres t := by
  unfold assert_valid_rate_time_and_insert at h
  unfold alignStep
  split at h
  · cases h
  · split at h
    · rw [if_pos]
      · cases h
        rfl
      · assumption
    · split at h
      · rw [if_neg]
        · cases h
          rfl
        · assumption
      · cases h

theorem insertRest_spec (hres now : ℚ) (allow : Bool) (ts : List ℚ)
    (hvalid : ∀ x ∈ ts, assert_valid_rate_time_and_insert hres now allow x
        = .ok (alignStep hres x)) :
    ∀ (prevA : ℤ) (acc : List ℤ),
      (List.Chain (· < ·) prevA (ts.map (alignStep hres)) →
        insertRest hres now allow prevA ts acc
          = (none, acc ++ ts.map (alignStep hres))) ∧
      (¬ List.Chain (· < ·) prevA (ts.map (alignStep hres)) →
        (insertRest hres now allow prevA ts acc).1 = some .NonMonotonic) := by
  induction ts with
  | nil =>
    intro prevA acc
    refine ⟨fun _ => by simp [insertRest], fun hcon => absurd List.Chain.nil hcon⟩
  | cons t rest ih =>
    intro prevA acc
    have hv := hvalid t (by simp)
    have hrest : ∀ x ∈ rest, assert_valid_rate_time_and_insert hres now allow x
        = .ok (alignStep hres x) := fun x h2 => hvalid x (by simp [h2])
    constructor
    · intro hchain
      rw [List.map_cons, List.chain_cons] at hchain
      simp only [insertRest, hv]
      rw [if_pos hchain.1]
      rw [(ih hrest (alignStep hres t) (acc ++ [alignStep hres t])).1 hchain.2]
      simp
    · intro hcon
      by_cases h1 : prevA < alignStep hres t
      · have h2 : ¬ List.Chain (· < ·) (alignStep hres t) (rest.map (alignStep hres)) := by
          intro hc
          exact hcon (by rw [List.map_cons, List.chain_cons]; exact ⟨h1, hc⟩)
        simp only [insertRest, hv]
        rw [if_pos h1]
        exact (ih hrest (alignStep hres t) (acc ++ [alignStep hres t])).2 h2
      · simp only [insertRest, hv]
        rw [if_neg h1]

theorem buildTimes_spec (hres now : ℚ) (allow : Bool) (t : ℚ) (rest : List ℚ)
    (hvalid : ∀ x ∈ t :: rest, assert_valid_rate_time_and_insert hres now allow x
        = .ok (alignStep hres x)) :
    (List.Chain' (· < ·) ((t :: rest).map (alignStep hres)) →
      buildTimes hres now allow (t :: rest) = (none, (t :: rest).map (alignStep hres))) ∧
    (¬ List.Chain' (· < ·) ((t :: rest).map (alignStep hres)) →
      (buildTimes hres now allow (t :: rest)).1 = some .NonMonotonic) := by
  have hv := hvalid t (by simp)
  have hrest : ∀ x ∈ rest, assert_valid_rate_time_and_insert hres now allow x
      = .ok (alignStep hres x) := fun x h2 => hvalid x (by simp [h2])
  have hch : List.Chain' (· < ·) ((t :: rest).map (alignStep hres))
      ↔ List.Chain (· < ·) (alignStep hres t) (rest.map (alignStep hres)) := by
    rw [List.map_cons]
    exact Iff.rfl
  constructor
  · intro hchain
    simp only [buildTimes, hv]
    rw [(insertRest_spec hres now allow rest hrest (alignStep hres t)
      [alignStep hres t]).1 (hch.mp hchain)]
    simp
  · intro hcon
    simp only [buildTimes, hv]
    exact (insertRest_spec hres now allow rest hrest (alignStep hres t)
      [alignStep hres t]).2 (fun hc => hcon (hch.mpr hc))

theorem set_nontrivial_eq (hres now : ℚ) (t : ℚ) (rest vs : List ℚ)
    (p : Parameters_) (b : Buffers_) :
    Parameters_.set hres now ⟨some (t :: rest), some vs, none⟩ p b
      = if (t :: rest).length ≠ vs.length
        then (some .SizeMismatch, { p with rate_values_ := vs }, b)
        else
          match buildTimes hres now p.allow_offgrid_times_ (t :: rest) with
          | (some e, built) =>
            (some e, { p with rate_values_ := vs, rate_times_ := built }, b)
          | (none, built) =>
            (none, { p with rate_values_ := vs, rate_times_ := built },
              { b with idx_ := 0 }) := rfl

/-- C5: given-order monotonicity: a non-trivial set call (both keys present,
`rate_times` non-empty, matching sizes, every element individually valid)
fails `NonMonotonic` whenever the aligned times are not strictly increasing
in the exact order given, and every successfully accepted input is stored
with strictly increasing aligned times in input order (no implicit sort). -/
theorem C5_given_order_monotonicity (hres now : ℚ) (p : Parameters_) (b : Buffers_)
    (t : ℚ) (rest vs : List ℚ) (hlen : (t :: rest).length = vs.length)
    (hvalid : ∀ x ∈ t :: rest,
      assert_valid_rate_time_and_insert hres now p.allow_offgrid_times_ x
        = .ok (alignStep hres x)) :
    (¬ List.Chain' (· < ·) ((t :: rest).map (alignStep hres)) →
      (Parameters_.set hres now ⟨some (t :: rest), some vs, none⟩ p b).1
        = some .NonMonotonic) ∧
    ((Parameters_.set hres now ⟨some (t :: rest), some vs, none⟩ p b).1 = none →
      ((Parameters_.set hres now ⟨some (t :: rest), some vs, none⟩ p b).2.1).rate_times_
          = (t :: rest).map (alignStep hres) ∧
      List.Pairwise (· < ·)
        ((Parameters_.set hres now ⟨some (t :: rest), some vs, none⟩ p b).2.1).rate_times_) := by
  rw [set_nontrivial_eq, if_neg (by simp [hlen])]
  constructor
  · intro hcon
    have hb1 := (buildTimes_spec hres now p.allow_offgrid_times_ t rest hvalid).2 hcon
    rcases hbt : buildTimes hres now p.allow_offgrid_times_ (t :: rest) with ⟨be, bl⟩
    rw [hbt] at hb1
    cases be with
    | none => cases hb1
    | some e =>
      cases hb1
      rfl
  · intro hok
    by_cases hchain : List.Chain' (· < ·) ((t :: rest).map (alignStep hres))
    · have hb1 := (buildTimes_spec hres now p.allow_offgrid_times_ t rest hvalid).1 hchain
      rw [hb1]
      refine ⟨rfl, ?_⟩
      simpa using List.chain'_iff_pairwise.mp hchain
    · have hb1 := (buildTimes_spec hres now p.allow_offgrid_times_ t rest hvalid).2 hchain
      rcases hbt : buildTimes hres now p.allow_offgrid_times_ (t :: rest) with ⟨be, bl⟩
      rw [hbt] at hb1
      rw [hbt] at hok
      cases be with
      | none => cases hb1
      | some e => cases hok

/-- Witness for C5: the spec's example `set(times = [200.0, 100.5],
rates = [100, 50])` at resolution 0.1 ms (both times individually valid and
grid-aligned: steps 2000 and 1005) fails `NonMonotonic` instead of being
sorted and accepted. -/
theorem C5_witness :
    (Parameters_.set (1/10) 0 ⟨some [200, 201/2], some [100, 50], none⟩
      Parameters_.init ⟨0, 0⟩).1 = some .NonMonotonic := by
  refine (C5_given_order_monotonicity (1/10) 0 Parameters_.init ⟨0, 0⟩
    200 [201/2] [100, 50] rfl ?_).1 ?_
  · intro x hx
    rcases List.mem_cons.mp hx with rfl | hx2
    · with_unfolding_all rfl
    · rcases List.mem_singleton.mp hx2 with rfl
      with_unfolding_all rfl
  · intro hc
    rw [List.map_cons, List.map_singleton, List.chain'_cons] at hc
    have h1 : alignStep (1/10) 200 = 2000 := by with_unfolding_all rfl
    have h2 : alignStep (1/10) (201/2) = 1005 := by with_unfolding_all rfl
    rw [h1, h2] at hc
    omega

theorem pairTimes_length : ∀ l : List ℚ, (pairTimes l).length = l.length / 2
  | [] => rfl
  | [_] => by simp [pairTimes]
  | _ :: _ :: rest => by
    simp only [pairTimes, List.length_cons, pairTimes_length rest]
    omega

theorem pairRates_length : ∀ l : List ℚ, (pairRates l).length = l.length / 2
  | [] => rfl
  | [_] => by simp [pairRates]
  | _ :: _ :: rest => by
    simp only [pairRates, List.length_cons, pairRates_length rest]
    omega

/-- C10: `set_data_from_stimulation_backend` rebuilds its candidate from the
raw millisecond times of all existing breakpoints and re-validates every one
of them against the current simulation time: for every non-empty, even-length
update issued after the simulation clock has reached the time of some
existing breakpoint, the call fails `NotInFuture` — even when every newly
supplied time lies strictly in the future — and the stored schedule and
buffers are exactly unchanged. -/
theorem C10_merge_revalidates_past (hres now : ℚ) (P : Parameters_) (B : Buffers_)
    (upd : List ℚ) (hh : 0 < hres)
    (hsorted : List.Pairwise (· < ·) P.rate_times_)
    (hlen : P.rate_times_.length = P.rate_values_.length)
    (hpast : ∃ s ∈ P.rate_times_, (s : ℚ) * hres ≤ now)
    (hupd : upd ≠ []) (heven : upd.length % 2 = 0)
    (hfut : ∀ x ∈ pairTimes upd, now < x) :
    set_data_from_stimulation_backend hres now P B upd = (some .NotInFuture, P, B) := by
  obtain ⟨s1, hs1mem, hs1le⟩ := hpast
  have hPne : P.rate_times_ ≠ [] := by
    intro h0
    rw [h0] at hs1mem
    cases hs1mem
  obtain ⟨s0, restT, hPt⟩ : ∃ s0 restT, P.rate_times_ = s0 :: restT := by
    cases hpt2 : P.rate_times_ with
    | nil => exact absurd hpt2 hPne
    | cons a l => exact ⟨a, l, rfl⟩
  rw [hPt] at hs1mem hsorted
  have hs0le : (s0 : ℚ) * hres ≤ now := by
    rcases List.mem_cons.mp hs1mem with rfl | hmem
    · exact hs1le
    · have hlt : s0 < s1 := (List.pairwise_cons.mp hsorted).1 s1 hmem
      have hcast : (s0 : ℚ) ≤ (s1 : ℚ) := by exact_mod_cast le_of_lt hlt
      calc (s0 : ℚ) * hres ≤ (s1 : ℚ) * hres :=
            mul_le_mul_of_nonneg_right hcast (le_of_lt hh)
        _ ≤ now := hs1le
  have hfail : assert_valid_rate_time_and_insert hres now P.allow_offgrid_times_
      ((s0 : ℚ) * hres) = .error .NotInFuture := by
    unfold assert_valid_rate_time_and_insert
    rw [if_pos hs0le]
  have hbt : buildTimes hres now P.allow_offgrid_times_
      ((s0 : ℚ) * hres :: ((restT.map fun s : ℤ => (s : ℚ) * hres) ++ pairTimes upd))
      = (some .NotInFuture, []) := by
    simp only [buildTimes, hfail]
  simp only [set_data_from_stimulation_backend]
  rw [if_neg hupd, if_neg (by omega : ¬ upd.length % 2 ≠ 0)]
  rw [hPt, List.map_cons, List.cons_append]
  rw [set_nontrivial_eq]
  have hsz : ¬ ((((s0 : ℚ) * hres
        :: ((restT.map fun s : ℤ => (s : ℚ) * hres) ++ pairTimes upd)).length)
      ≠ (P.rate_values_ ++ pairRates upd).length) := by
    rw [hPt] at hlen
    simp only [List.length_cons, List.length_append, List.length_map,
      pairTimes_length, pairRates_length, ne_eq, not_not] at hlen ⊢
    omega
  rw [if_neg hsz, hbt]

/-- Witness for C10: at simulation time 60 ms, merging the strictly-future
pair (70 ms, rate 10) into a schedule holding a breakpoint at 50 ms fails
`NotInFuture` and leaves the stored schedule and buffers unchanged. -/
theorem C10_witness :
    set_data_from_stimulation_backend 1 60 ⟨[50], [7], false⟩ ⟨0, 0⟩ [70, 10]
      = (some .NotInFuture, ⟨[50], [7], false⟩, ⟨0, 0⟩) := by
  apply C10_merge_revalidates_past 1 60 ⟨[50], [7], false⟩ ⟨0, 0⟩ [70, 10]
    (by norm_num) (by simp) rfl ⟨50, by simp, by norm_num⟩ (by simp) rfl
  intro x hx
  have hpt : pairTimes [70, 10] = ([70] : List ℚ) := by with_unfolding_all rfl
  rw [hpt] at hx
  rw [List.mem_singleton.mp hx]
  norm_num

end nest
